import Mathlib

set_option autoImplicit false
set_option linter.unusedVariables false

/- Shallow embedding of the batch-processing engine of the `batchprocessor`
   repository, a VS Code extension written in TypeScript.  The embedded
   source files are `batchProcessor.ts` (class `BatchProcessor`),
   `mcpServer.ts` (class `MCPServer`), `llmProvider.ts` (class
   `LLMProvider`) and `promptManager.ts` (class `PromptManager`).
   External collaborators — the file system, the LLM backends, the
   progress UI and the cancellation sources — are modelled as explicit
   environment records passed to the embedded operations, following the
   interface boundaries the code itself uses. -/

/- `vscode.Uri`: only the `fsPath` view is used by the embedded code. -/
structure Uri where
  fsPath : String
deriving DecidableEq

/- `LLMResponse.usage` from llmProvider.ts. -/
structure LLMUsage where
  promptTokens : Option Nat := none
  completionTokens : Option Nat := none
  totalTokens : Option Nat := none
deriving DecidableEq

/- `LLMResponse` from llmProvider.ts. -/
structure LLMResponse where
  content : String
  model : Option String := none
  usage : Option LLMUsage := none
deriving DecidableEq

/- `LLMRequest` from llmProvider.ts.  `temperature: 0.7` is a floating-point
   field never inspected by any embedded operation and is omitted. -/
structure LLMRequest where
  prompt : String
  model : String
  maxTokens : Nat := 4000
deriving DecidableEq

/- `ProcessingResult` from batchProcessor.ts. -/
structure ProcessingResult where
  uri : Uri
  success : Bool
  response : Option String := none
  error : Option String := none
  model : Option String := none
  tokens : Option Nat := none
deriving DecidableEq

/- `BatchResult` from batchProcessor.ts. -/
structure BatchResult where
  results : List ProcessingResult
  totalProcessed : Nat
  totalSuccessful : Nat
  totalFailed : Nat
  totalTokens : Nat
  duration : Nat
deriving DecidableEq

/- `Task` from taskManager.ts, as used by batchProcessor.ts: `label`,
   `command` and the optional `aiPrompt` template.  (Named `TaskDef` here
   because `Task` is taken by the Lean core library.) -/
structure TaskDef where
  label : Option String := none
  command : String
  aiPrompt : Option String := none
deriving DecidableEq

/- `Prompt` from promptManager.ts, restricted to the fields the engine
   reads (`name` and the frontmatter-stripped `content`). -/
structure PromptDef where
  name : String
  content : String
deriving DecidableEq

/- The `type: 'task' | 'prompt'` tag and the `item: Task | Prompt` value
   always travel together in the source (every call site passes the tag
   matching the value), so they are embedded as one tagged union. -/
inductive OpItem where
  | task (t : TaskDef)
  | prompt (p : PromptDef)
deriving DecidableEq

/- JavaScript `a || b` on an optional string: `undefined` and the empty
   string are both falsy. -/
def jsOrElse (o : Option String) (d : String) : String :=
  match o with
  | some s => if s = "" then d else s
  | none => d

/- JavaScript falsiness test of a `string | undefined` value. -/
def jsStrFalsy (o : Option String) : Bool :=
  match o with
  | some s => s = ""
  | none => true

/- JavaScript `GetSubstitution` for a replacement string with no capture
   groups: `$$` yields `$`, `$&` the matched text, a dollar followed by a
   backquote (code 96) the portion of the subject before the match, a
   dollar followed by a quote (code 39) the portion after the match; any
   other `$` is literal.  Arguments: matched text, subject before the
   match, subject after the match, then the replacement string. -/
def expandRepl (matched preceding following : List Char) : List Char → List Char
  | [] => []
  | [c] => [c]
  | c :: d :: rest =>
    if c = '$' then
      if d = '$' then '$' :: expandRepl matched preceding following rest
      else if d = '&' then matched ++ expandRepl matched preceding following rest
      else if d = Char.ofNat 96 then
        preceding ++ expandRepl matched preceding following rest
      else if d = Char.ofNat 39 then
        following ++ expandRepl matched preceding following rest
      else c :: expandRepl matched preceding following (d :: rest)
    else c :: expandRepl matched preceding following (d :: rest)

/- One pass of JavaScript `String.prototype.replace` with a global literal
   regular expression: the subject is scanned left to right, every
   non-overlapping occurrence of the (nonempty) pattern is replaced, and
   replacement text is never rescanned within the pass.  `seen` is the
   portion of the original subject already consumed (needed by the
   dollar-escapes of the replacement string).  The scan consumes at least
   one subject character per step, so `fuel = subject.length` makes the
   fuel-exhaustion case unreachable; it exists only to keep the recursion
   structural. -/
def replaceAllAux (pat repl : List Char) : Nat → List Char → List Char → List Char
  | _, _, [] => []
  | 0, _, rest => rest
  | fuel + 1, seen, c :: rest =>
    if pat ≠ [] ∧ pat.isPrefixOf (c :: rest) then
      expandRepl pat seen ((c :: rest).drop pat.length) repl
        ++ replaceAllAux pat repl fuel (seen ++ pat) ((c :: rest).drop pat.length)
    else
      c :: replaceAllAux pat repl fuel (seen ++ [c]) rest

/- `subject.replace(/pat/g, repl)` for a literal pattern `pat`. -/
def jsReplaceAll (subject pat repl : String) : String :=
  ⟨replaceAllAux pat.data repl.data subject.data.length [] subject.data⟩

/- Node `path.basename` for POSIX paths: trailing separators are ignored
   and the final path segment is returned. -/
def basename (p : String) : String :=
  let noTrail := (p.data.reverse.dropWhile (fun c => c = '/')).reverse
  ⟨(noTrail.reverse.takeWhile (fun c => c ≠ '/')).reverse⟩

/- The four placeholder strings of `BatchProcessor.buildPrompt`. -/
def fileContentPH : String := "\x7b\x7bFILE_CONTENT\x7d\x7d"

def filePathPH : String := "\x7b\x7bFILE_PATH\x7d\x7d"

def fileNamePH : String := "\x7b\x7bFILE_NAME\x7d\x7d"

def workspacePathPH : String := "\x7b\x7bWORKSPACE_PATH\x7d\x7d"

/- `BatchProcessor.buildPrompt`: choose the template (a task's `aiPrompt`
   with a synthesized fallback, or a prompt's body), then apply the four
   global replacements in source order.  `workspacePath` is
   `vscode.workspace.workspaceFolders?.[0]?.uri.fsPath`, an ambient input
   passed here explicitly; `|| ''` maps its absence to the empty string. -/
def buildPrompt (uri : Uri) (content : String) (item : OpItem)
    (workspacePath : Option String) : String :=
  let promptTemplate :=
    match item with
    | .task t =>
        jsOrElse t.aiPrompt
          ("Execute task: " ++ t.command ++ "\n\nFile content:\n" ++ content)
    | .prompt p => p.content
  jsReplaceAll
    (jsReplaceAll
      (jsReplaceAll
        (jsReplaceAll promptTemplate fileContentPH content)
        filePathPH uri.fsPath)
      fileNamePH (basename uri.fsPath))
    workspacePathPH (workspacePath.getD "")

/- `BatchProcessor.createBatches`: `for (let i = 0; i < items.length;
   i += batchSize) batches.push(items.slice(i, i + batchSize))`.  Each
   iteration consumes `batchSize ≥ 1` items, so `fuel = items.length`
   makes the fuel-exhaustion case unreachable; the fuel argument exists
   only to keep the recursion structural.  For `batchSize = 0` and a
   nonempty list the source loop does not terminate; every caller
   requires `batchSize ≥ 1`, and that case returns `[]` here only to
   keep the function total. -/
def createBatchesFuel {α : Type} : Nat → List α → Nat → List (List α)
  | _, [], _ => []
  | 0, _, _ => []
  | fuel + 1, items, batchSize =>
    if batchSize = 0 then []
    else items.take batchSize :: createBatchesFuel fuel (items.drop batchSize) batchSize

def createBatches {α : Type} (items : List α) (batchSize : Nat) : List (List α) :=
  createBatchesFuel items.length items batchSize

example : createBatches [0, 1, 2, 3, 4] 2 = [[0, 1], [2, 3], [4]] := by decide

example :
    buildPrompt ⟨"/x/y/report.txt"⟩ "hi"
      (.prompt ⟨"p", "A:\x7b\x7bFILE_NAME\x7d\x7d B:\x7b\x7bFILE_CONTENT\x7d\x7d"⟩) none
      = "A:report.txt B:hi" := by decide

/- The mutable fields of a `BatchProcessor` instance: `isProcessing` and
   the presence of the `cancellationToken` handle (the spec's
   `EngineState`). -/
structure EngineState where
  isProcessing : Bool := false
  cancellationToken : Bool := false
deriving DecidableEq

/- `BatchProcessor.isCurrentlyProcessing`. -/
def isCurrentlyProcessing (st : EngineState) : Bool :=
  st.isProcessing

/- `BatchProcessor.cancel`: calls `this.cancellationToken.cancel()` when
   the handle exists; the resulting signal reaches an active run through
   `RunEnv.cancelRequested` below.  The returned boolean records whether
   a handle was present to signal; the engine state itself is not
   modified by `cancel`. -/
def cancelSignalsToken (st : EngineState) : Bool :=
  st.cancellationToken

/- Environment of one item dispatch, the collaborators `processItem`
   calls: `readFile` models `getFileContent` (raw file text, or the
   directory-listing text for directories, or the thrown
   `Failed to read …` error); `send` models `LLMProvider.sendRequest`
   (response, or the thrown backend error); `workspacePath` is the
   ambient first workspace folder used by `buildPrompt` and
   `saveResult`. -/
structure ItemEnv where
  readFile : Uri → Except String String
  send : LLMRequest → Except String LLMResponse
  workspacePath : Option String

/- The `try` block of `BatchProcessor.processItem` (lines 140–162): read
   the content, build the prompt and request, call the backend, save the
   result (a Result Sink interaction; `saveResult` catches its own errors
   and never throws), and produce the success outcome.  The boolean
   records whether `saveResult` was invoked. -/
def processItemTry (env : ItemEnv) (uri : Uri) (item : OpItem) (model : String) :
    Except String (ProcessingResult × Bool) :=
  match env.readFile uri with
  | .error e => .error e
  | .ok content =>
    let prompt := buildPrompt uri content item env.workspacePath
    let request : LLMRequest := { prompt := prompt, model := model }
    match env.send request with
    | .error e => .error e
    | .ok response =>
      .ok ({ uri := uri, success := true, response := some response.content,
             model := response.model,
             tokens := response.usage.bind (fun u => u.totalTokens) }, true)

/- `BatchProcessor.processItem`: the whole body is the `try` block above
   plus the `catch` that converts any thrown error into a
   `success: false` outcome carrying the error message. -/
def processItem (env : ItemEnv) (uri : Uri) (item : OpItem) (model : String) :
    ProcessingResult × Bool :=
  match processItemTry env uri item model with
  | .ok r => r
  | .error e => ({ uri := uri, success := false, error := some e }, false)

/- One entry of a `Promise.allSettled` result. -/
inductive PromiseResult (α : Type) where
  | fulfilled (value : α)
  | rejected (reason : String)
deriving DecidableEq

/- The settled state of the promise returned by `processItem`: the async
   function's body never throws outside its own `try`/`catch`, so the
   promise always fulfills with `processItem`'s return value. -/
def processItemSettled (env : ItemEnv) (uri : Uri) (item : OpItem) (model : String) :
    PromiseResult (ProcessingResult × Bool) :=
  .fulfilled (processItem env uri item model)

/- Lines 74–92 of `process` for one batch: dispatch every uri of the
   batch (`batch.map(uri => this.processItem(...))`), await
   `Promise.allSettled`, and convert entry `i` of the settled list —
   paired with `batch[i]` — into the recorded outcome: the fulfilled
   value, or a synthesized failure record for a rejected promise. -/
def outcomesOf (env : ItemEnv) (item : OpItem) (model : String) (batch : List Uri) :
    List ProcessingResult :=
  (batch.zip (batch.map (fun u => processItemSettled env u item model))).map
    (fun p =>
      match p.2 with
      | .fulfilled r => r.1
      | .rejected reason => { uri := p.1, success := false, error := some reason })

/- `totalTokens += result.value.tokens || 0`, summed over one batch
   (only fulfilled entries contribute). -/
def tokensOf (env : ItemEnv) (item : OpItem) (model : String) (batch : List Uri) : Nat :=
  ((batch.map (fun u => processItemSettled env u item model)).map
    (fun pr =>
      match pr with
      | .fulfilled r => r.1.tokens.getD 0
      | .rejected _ => 0)).sum

/- The uris of one batch whose dispatch reached the `saveResult` call
   (the Result Sink write on the success path of `processItem`). -/
def writesOf (env : ItemEnv) (item : OpItem) (model : String) (batch : List Uri) : List Uri :=
  batch.filter (fun u => (processItem env u item model).2)

/- Accumulated observable outcome of the batch loop: the recorded
   results, the token total, the uris dispatched to `processItem`, and
   the uris written to the Result Sink. -/
structure LoopAcc where
  results : List ProcessingResult
  tokens : Nat
  dispatched : List Uri
  sinkWrites : List Uri
deriving DecidableEq

/- Environment of one `process` run: `selectModel` is the value returned
   by `llmProvider.selectModel()`; `cancelRequested i` is the value of
   `this.cancellationToken?.token.isCancellationRequested` observed at
   the boundary check of batch `i` (fed by `cancel()` or the progress
   UI); `duration` is the wall-clock `Date.now()` difference. -/
structure RunEnv where
  selectModel : Option String
  cancelRequested : Nat → Bool
  itemEnv : ItemEnv
  duration : Nat

/- The `for (let batchIndex = 0; ...)` loop of `process` (lines 69–104):
   at each batch boundary the cancellation flag is checked and, when set,
   the loop breaks; otherwise the whole batch is dispatched, settled and
   recorded.  The pacing delay between batches (line 100–103) only
   suspends and is not observable in this model. -/
def runBatchesFrom (env : RunEnv) (item : OpItem) (model : String) :
    Nat → List (List Uri) → LoopAcc
  | _, [] => ⟨[], 0, [], []⟩
  | i, batch :: rest =>
    if env.cancelRequested i then ⟨[], 0, [], []⟩
    else
      let acc := runBatchesFrom env item model (i + 1) rest
      ⟨outcomesOf env.itemEnv item model batch ++ acc.results,
       tokensOf env.itemEnv item model batch + acc.tokens,
       batch ++ acc.dispatched,
       writesOf env.itemEnv item model batch ++ acc.sinkWrites⟩

/- The aggregation step of `process` (lines 107–115): `totalProcessed`
   is `results.length`, the success/failure counts partition the results
   by their `success` flag, and `duration` is the measured wall clock. -/
def summaryFromAcc (env : RunEnv) (acc : LoopAcc) : BatchResult :=
  { results := acc.results,
    totalProcessed := acc.results.length,
    totalSuccessful := (acc.results.filter (fun r => r.success)).length,
    totalFailed := (acc.results.filter (fun r => !r.success)).length,
    totalTokens := acc.tokens,
    duration := env.duration }

/- What a `process` call returns: the summary, or the message of the
   error it throws. -/
inductive RunOutcome where
  | ok (summary : BatchResult)
  | err (message : String)
deriving DecidableEq

/- Side effects of a `process` call beyond the engine state: the items
   dispatched to `processItem` and the Result Sink writes. -/
structure ProcessEffects where
  dispatched : List Uri
  sinkWrites : List Uri
deriving DecidableEq

/- `BatchProcessor.process` (lines 32–124).  Control flow of the source:
   reject when `isProcessing` (lines 38–40, engine state untouched);
   claim the flag and create the cancellation handle (41–43, the
   transient in-run state has both fields true); resolve the model once
   and throw `No model selected` when it is absent or empty (49–54);
   partition into batches (57) and run the batch loop inside
   `withProgress` (60–105); aggregate the summary (107–115); show it
   (`showResults`, a UI collaborator, 117); and in all cases release the
   flag and the handle in `finally` (120–123) before returning or
   re-throwing.  The returned state is the post-call engine state. -/
def process (env : RunEnv) (st : EngineState) (uris : List Uri) (item : OpItem)
    (batchSize : Nat) : EngineState × RunOutcome × ProcessEffects :=
  if st.isProcessing then
    (st, .err "Another batch operation is already in progress", ⟨[], []⟩)
  else
    if jsStrFalsy env.selectModel then
      (⟨false, false⟩, .err "No model selected", ⟨[], []⟩)
    else
      let model := env.selectModel.getD ""
      let batches := createBatches uris batchSize
      let acc := runBatchesFrom env item model 0 batches
      (⟨false, false⟩, .ok (summaryFromAcc env acc), ⟨acc.dispatched, acc.sinkWrites⟩)

/- `PromptManager.getPrompt`. -/
def getPrompt (prompts : List PromptDef) (name : String) : Option PromptDef :=
  prompts.find? (fun p => p.name == name)

/- Arguments of the `batch_process_files` MCP tool.  `type` and
   `item_name` are strings (the empty string standing for a missing or
   empty — hence falsy — argument); `file_patterns` is `none` when the
   argument is missing. -/
structure BPArgs where
  type : String
  item_name : String
  file_patterns : Option (List String)
  batch_size : Nat := 1
deriving DecidableEq

/- An `MCPResponse`: either a `result` payload (carrying the run summary
   for `batch_process_files`) or an `error` with JSON-RPC code and
   message. -/
inductive MCPOutcome where
  | ok (summary : BatchResult)
  | err (code : Int) (message : String)
deriving DecidableEq

/- Environment of the MCP server: `prompts` is the prompt manager's
   cache; `findFiles` models `vscode.workspace.findFiles` for one glob
   pattern; `run` is the environment of a `process` call.
   `tasksFindTypeError` is the message of the `TypeError` thrown by the
   expression `this.taskManager.getTasks().find(item_name)` on line 201
   of mcpServer.ts: `item_name` is a string, and `Array.prototype.find`
   throws a `TypeError` when its argument is not callable (and a
   `Promise`, which the file's own comments say `getTasks()` returns,
   has no `find` method at all) — so the expression throws for every
   `item_name`, whatever `TaskManager.getTasks` returns; only the
   message text is host-specific. -/
structure ServerEnv where
  tasksFindTypeError : String
  prompts : List PromptDef
  findFiles : String → List Uri
  run : RunEnv

/- `MCPServer.handleBatchProcessFiles` (lines 183–280): validate the
   arguments, look up the operation, resolve the file patterns, run the
   batch, and map any thrown error to a `-32603` response via the
   surrounding `catch`.  The task branch throws the `TypeError`
   described at `ServerEnv.tasksFindTypeError`, so its
   `Task not found` (-32602) test on line 202 is unreachable. -/
def handleBatchProcessFiles (env : ServerEnv) (st : EngineState) (args : BPArgs) :
    EngineState × MCPOutcome :=
  if args.type = "" ∨ args.item_name = "" ∨ args.file_patterns = none then
    (st, .err (-32602) "Invalid parameters. Required: type, item_name, file_patterns")
  else if args.type = "task" then
    (st, .err (-32603) env.tasksFindTypeError)
  else if args.type = "prompt" then
    match getPrompt env.prompts args.item_name with
    | none => (st, .err (-32602) ("Prompt not found: " ++ args.item_name))
    | some p =>
      let uris := ((args.file_patterns.getD []).map env.findFiles).flatten
      if uris.isEmpty then
        (st, .err (-32602) "No files found matching the specified patterns")
      else
        let r := process env.run st uris (.prompt p) args.batch_size
        match r.2.1 with
        | .ok br => (r.1, .ok br)
        | .err msg => (r.1, .err (-32603) msg)
  else
    (st, .err (-32602) "Type must be \"task\" or \"prompt\"")

/- `MCPServer.handleGetProcessingStatus`: the `processing` field of the
   `get_processing_status` result. -/
def handleGetProcessingStatus (st : EngineState) : Bool :=
  isCurrentlyProcessing st

/- Concrete collaborator environments used by example checks and witnesses. -/
def sampleItemEnv : ItemEnv :=
  { readFile := fun u => if u.fsPath = "/a" then .ok "A" else .error "boom",
    send := fun _ => .ok { content := "resp", model := some "m",
                           usage := some { totalTokens := some 3 } },
    workspacePath := none }

def sampleRunEnv : RunEnv :=
  { selectModel := some "m", cancelRequested := fun _ => false,
    itemEnv := sampleItemEnv, duration := 5 }

example :
    process sampleRunEnv {} [⟨"/a"⟩, ⟨"/b"⟩] (.prompt ⟨"p", "X"⟩) 1 =
      ({},
       .ok { results :=
              [{ uri := ⟨"/a"⟩, success := true, response := some "resp",
                 model := some "m", tokens := some 3 },
               { uri := ⟨"/b"⟩, success := false, error := some "boom" }],
             totalProcessed := 2, totalSuccessful := 1, totalFailed := 1,
             totalTokens := 3, duration := 5 },
       ⟨[⟨"/a"⟩, ⟨"/b"⟩], [⟨"/a"⟩]⟩) := by decide

/- Splitting a `take` at an intermediate point. -/
theorem take_add_split {α : Type} : ∀ (l : List α) (m n : Nat),
    l.take (m + n) = l.take m ++ (l.drop m).take n := by
  intro l m
  induction m generalizing l with
  | zero => intro n; simp
  | succ m ih =>
    intro n
    cases l with
    | nil => simp
    | cons a t =>
      rw [Nat.succ_add, List.take_succ_cons, ih t n]
      simp

/- Both branches of `processItem` record the dispatched uri itself. -/
theorem processItem_fst_uri (env : ItemEnv) (u : Uri) (it : OpItem) (m : String) :
    (processItem env u it m).1.uri = u := by
  cases hr : env.readFile u with
  | error e => simp [processItem, processItemTry, hr]
  | ok content =>
    cases hs : env.send { prompt := buildPrompt u content it env.workspacePath, model := m } with
    | error e => simp [processItem, processItemTry, hr, hs]
    | ok resp => simp [processItem, processItemTry, hr, hs]

/- A read failure is converted by the `catch` of `processItem` into a
   failure outcome carrying the thrown message, with no sink write. -/
theorem processItem_read_error (env : ItemEnv) (u : Uri) (it : OpItem) (m : String)
    (e : String) (h : env.readFile u = .error e) :
    processItem env u it m = ({ uri := u, success := false, error := some e }, false) := by
  simp [processItem, processItemTry, h]

/- A backend failure is likewise converted into a failure outcome with
   the backend's message, with no sink write. -/
theorem processItem_send_error (env : ItemEnv) (u : Uri) (it : OpItem) (m : String)
    (content e : String) (hr : env.readFile u = .ok content)
    (hs : env.send { prompt := buildPrompt u content it env.workspacePath, model := m }
            = .error e) :
    processItem env u it m = ({ uri := u, success := false, error := some e }, false) := by
  simp [processItem, processItemTry, hr, hs]

/- Since every `processItem` promise fulfills, the recorded outcomes of a
   batch are exactly the `processItem` return values, in dispatch
   order. -/
theorem outcomesOf_eq_map (env : ItemEnv) (it : OpItem) (m : String) (batch : List Uri) :
    outcomesOf env it m batch = batch.map (fun u => (processItem env u it m).1) := by
  induction batch with
  | nil => rfl
  | cons u us ih =>
    unfold outcomesOf at ih ⊢
    simp only [List.map_cons, List.zip_cons_cons]
    rw [ih]
    rfl

/- Extracting the uris back out of the recorded outcomes gives back the
   dispatched uris. -/
theorem map_uri_processItem (env : ItemEnv) (it : OpItem) (m : String) (l : List Uri) :
    ((l.map (fun u => (processItem env u it m).1)).map (fun r => r.uri)) = l := by
  induction l with
  | nil => rfl
  | cons u us ih => simp only [List.map_cons, processItem_fst_uri, ih]

/- `createBatchesFuel` on the empty list. -/
theorem createBatchesFuel_nil {α : Type} (fuel b : Nat) :
    createBatchesFuel fuel ([] : List α) b = [] := by
  cases fuel <;> rfl

/- Unfolding `createBatchesFuel` on a nonempty list with positive fuel. -/
theorem createBatchesFuel_cons {α : Type} (fuel : Nat) (x : α) (xs : List α) (b : Nat)
    (hb : b ≠ 0) :
    createBatchesFuel (fuel + 1) (x :: xs) b
      = (x :: xs).take b :: createBatchesFuel fuel ((x :: xs).drop b) b := by
  simp [createBatchesFuel, hb]

/- Concatenating the batches gives back the input list. -/
theorem createBatchesFuel_flatten {α : Type} (b : Nat) (hb : 1 ≤ b) :
    ∀ (fuel : Nat) (l : List α), l.length ≤ fuel →
      (createBatchesFuel fuel l b).flatten = l := by
  intro fuel
  induction fuel with
  | zero =>
    intro l hl
    have : l = [] := List.eq_nil_of_length_eq_zero (by omega)
    simp [this, createBatchesFuel_nil]
  | succ fuel ih =>
    intro l hl
    cases l with
    | nil => simp [createBatchesFuel_nil]
    | cons x xs =>
      have hdl : ((x :: xs).drop b).length ≤ fuel := by
        simp only [List.length_drop, List.length_cons]
        simp only [List.length_cons] at hl
        omega
      rw [createBatchesFuel_cons fuel x xs b (by omega), List.flatten_cons,
        ih ((x :: xs).drop b) hdl]
      exact List.take_append_drop b (x :: xs)

/- The number of batches is the ceiling of `length / b`. -/
theorem createBatchesFuel_length {α : Type} (b : Nat) (hb : 1 ≤ b) :
    ∀ (fuel : Nat) (l : List α), l.length ≤ fuel →
      (createBatchesFuel fuel l b).length = (l.length + b - 1) / b := by
  intro fuel
  induction fuel with
  | zero =>
    intro l hl
    have : l = [] := List.eq_nil_of_length_eq_zero (by omega)
    subst this
    simp [createBatchesFuel_nil, Nat.div_eq_of_lt (by omega : b - 1 < b)]
  | succ fuel ih =>
    intro l hl
    cases l with
    | nil => simp [createBatchesFuel_nil, Nat.div_eq_of_lt (by omega : b - 1 < b)]
    | cons x xs =>
      rw [createBatchesFuel_cons fuel x xs b (by omega)]
      have hdl : ((x :: xs).drop b).length ≤ fuel := by
        simp only [List.length_drop, List.length_cons]
        simp only [List.length_cons] at hl
        omega
      rw [List.length_cons, ih ((x :: xs).drop b) hdl]
      simp only [List.length_drop, List.length_cons]
      rw [show xs.length + 1 + b - 1 = xs.length + b by omega,
        Nat.add_div_right _ (by omega : 0 < b)]
      by_cases hle : xs.length + 1 ≤ b
      · rw [show xs.length + 1 - b + b - 1 = b - 1 by omega,
          Nat.div_eq_of_lt (by omega : b - 1 < b),
          Nat.div_eq_of_lt (by omega : xs.length < b)]
      · rw [show xs.length + 1 - b + b - 1 = xs.length - b + b by omega]
        conv_rhs => rw [show xs.length = xs.length - b + b by omega]

/- A nonempty input yields at least one batch. -/
theorem createBatchesFuel_ne_nil {α : Type} (b : Nat) (hb : 1 ≤ b) (fuel : Nat)
    (l : List α) (hne : l ≠ []) (hl : l.length ≤ fuel) :
    createBatchesFuel fuel l b ≠ [] := by
  cases l with
  | nil => exact absurd rfl hne
  | cons x xs =>
    cases fuel with
    | zero => simp [List.length_cons] at hl
    | succ fuel =>
      rw [createBatchesFuel_cons fuel x xs b (by omega)]
      exact List.cons_ne_nil _ _

/- Every batch except possibly the last has exactly `b` items. -/
theorem createBatchesFuel_dropLast {α : Type} (b : Nat) (hb : 1 ≤ b) :
    ∀ (fuel : Nat) (l : List α), l.length ≤ fuel →
      ∀ batch ∈ (createBatchesFuel fuel l b).dropLast, batch.length = b := by
  intro fuel
  induction fuel with
  | zero =>
    intro l hl batch hm
    have : l = [] := List.eq_nil_of_length_eq_zero (by omega)
    subst this
    simp [createBatchesFuel_nil] at hm
  | succ fuel ih =>
    intro l hl batch hm
    cases l with
    | nil => simp [createBatchesFuel_nil] at hm
    | cons x xs =>
      rw [createBatchesFuel_cons fuel x xs b (by omega)] at hm
      have hdl : ((x :: xs).drop b).length ≤ fuel := by
        simp only [List.length_drop, List.length_cons]
        simp only [List.length_cons] at hl
        omega
      by_cases hrest : (x :: xs).drop b = []
      · rw [hrest, createBatchesFuel_nil] at hm
        simp at hm
      · have hne := createBatchesFuel_ne_nil b hb fuel ((x :: xs).drop b) hrest hdl
        rw [List.dropLast_cons_of_ne_nil hne] at hm
        rcases List.mem_cons.mp hm with h1 | h2
        · subst h1
          have hblen : b < (x :: xs).length := by
            by_contra hc
            push_neg at hc
            exact hrest (List.drop_eq_nil_of_le hc)
          rw [List.length_take]
          exact Nat.min_eq_left (by omega)
        · exact ih ((x :: xs).drop b) hdl batch h2

/- The last batch has `length % b` items, or `b` when `b` divides the
   length. -/
theorem createBatchesFuel_getLast {α : Type} (b : Nat) (hb : 1 ≤ b) :
    ∀ (fuel : Nat) (l : List α), l.length ≤ fuel → l ≠ [] →
      ∃ lb, (createBatchesFuel fuel l b).getLast? = some lb ∧
        lb.length = if l.length % b = 0 then b else l.length % b := by
  intro fuel
  induction fuel with
  | zero =>
    intro l hl hne
    exact absurd (List.eq_nil_of_length_eq_zero (by omega)) hne
  | succ fuel ih =>
    intro l hl hne
    cases l with
    | nil => exact absurd rfl hne
    | cons x xs =>
      rw [createBatchesFuel_cons fuel x xs b (by omega)]
      have hdl : ((x :: xs).drop b).length ≤ fuel := by
        simp only [List.length_drop, List.length_cons]
        simp only [List.length_cons] at hl
        omega
      by_cases hrest : (x :: xs).drop b = []
      · rw [hrest, createBatchesFuel_nil]
        refine ⟨(x :: xs).take b, by simp, ?_⟩
        have hlen : (x :: xs).length ≤ b := by
          have hcong := congrArg List.length hrest
          simp only [List.length_drop, List.length_cons, List.length_nil] at hcong
          simp only [List.length_cons]
          omega
        rw [List.length_take]
        simp only [List.length_cons] at hlen ⊢
        rw [Nat.min_eq_right hlen]
        by_cases heq : xs.length + 1 = b
        · rw [heq]
          simp [Nat.mod_self]
        · have hlt : xs.length + 1 < b := by omega
          rw [Nat.mod_eq_of_lt hlt, if_neg (by omega)]
      · obtain ⟨lb, hlast, hlen⟩ := ih ((x :: xs).drop b) hdl hrest
        have hrecne := createBatchesFuel_ne_nil b hb fuel ((x :: xs).drop b) hrest hdl
        refine ⟨lb, ?_, ?_⟩
        · cases hrec : createBatchesFuel fuel ((x :: xs).drop b) b with
          | nil => exact absurd hrec hrecne
          | cons y ys =>
            rw [List.getLast?_cons_cons]
            rw [hrec] at hlast
            exact hlast
        · rw [hlen]
          have hble : b ≤ (x :: xs).length := by
            by_contra hc
            push_neg at hc
            exact hrest (List.drop_eq_nil_of_le (Nat.le_of_lt hc))
          simp only [List.length_drop]
          rw [Nat.mod_eq_sub_mod hble]

/- The first `k` batches concatenate to the first `b * k` input items. -/
theorem createBatchesFuel_take_flatten {α : Type} (b : Nat) (hb : 1 ≤ b) :
    ∀ (fuel : Nat) (l : List α) (k : Nat), l.length ≤ fuel →
      ((createBatchesFuel fuel l b).take k).flatten = l.take (b * k) := by
  intro fuel
  induction fuel with
  | zero =>
    intro l k hl
    have : l = [] := List.eq_nil_of_length_eq_zero (by omega)
    subst this
    simp [createBatchesFuel_nil]
  | succ fuel ih =>
    intro l k hl
    cases l with
    | nil => simp [createBatchesFuel_nil]
    | cons x xs =>
      cases k with
      | zero => simp
      | succ k =>
        rw [createBatchesFuel_cons fuel x xs b (by omega), List.take_succ_cons,
          List.flatten_cons]
        have hdl : ((x :: xs).drop b).length ≤ fuel := by
          simp only [List.length_drop, List.length_cons]
          simp only [List.length_cons] at hl
          omega
        rw [ih ((x :: xs).drop b) k hdl,
          show b * (k + 1) = b + b * k by ring, take_add_split]

/- The observable aggregate of running a prefix of the batch list with no
   cancellation in between. -/
def accOf (env : ItemEnv) (it : OpItem) (m : String) (bs : List (List Uri)) : LoopAcc :=
  ⟨(bs.map (outcomesOf env it m)).flatten,
   (bs.map (tokensOf env it m)).sum,
   bs.flatten,
   (bs.map (writesOf env it m)).flatten⟩

/- The batch loop runs some prefix of the batch list: the boundary check
   was false for every dispatched batch, the first batch not dispatched
   (if any) had its boundary check true, and the accumulated state is the
   aggregate over the dispatched prefix. -/
theorem runBatchesFrom_spec (env : RunEnv) (it : OpItem) (m : String) :
    ∀ (bs : List (List Uri)) (i : Nat),
      ∃ k, k ≤ bs.length ∧
        (∀ j, j < k → env.cancelRequested (i + j) = false) ∧
        (k < bs.length → env.cancelRequested (i + k) = true) ∧
        runBatchesFrom env it m i bs = accOf env.itemEnv it m (bs.take k) := by
  intro bs
  induction bs with
  | nil =>
    intro i
    refine ⟨0, Nat.le_refl 0, ?_, ?_, rfl⟩
    · intro j hj
      omega
    · intro h
      simp at h
  | cons batch rest ih =>
    intro i
    by_cases hc : env.cancelRequested i = true
    · refine ⟨0, Nat.zero_le _, ?_, ?_, ?_⟩
      · intro j hj
        omega
      · intro _
        simpa using hc
      · simp [runBatchesFrom, hc, accOf]
    · have hcf : env.cancelRequested i = false := by
        cases h : env.cancelRequested i
        · rfl
        · exact absurd h hc
      obtain ⟨k, hk, hf, ht, heq⟩ := ih (i + 1)
      refine ⟨k + 1, by simp only [List.length_cons]; omega, ?_, ?_, ?_⟩
      · intro j hj
        cases j with
        | zero => simpa using hcf
        | succ j =>
          have h2 := hf j (by omega)
          rw [show i + (j + 1) = i + 1 + j by omega]
          exact h2
      · intro hlt
        have h2 := ht (by simp only [List.length_cons] at hlt; omega)
        rw [show i + (k + 1) = i + 1 + k by omega]
        exact h2
      · rw [List.take_succ_cons]
        simp only [runBatchesFrom, hcf, Bool.false_eq_true, if_false]
        rw [heq]
        simp [accOf]

/- The recorded results of a dispatched prefix are the `processItem`
   values of its items, in order. -/
theorem accOf_results (env : ItemEnv) (it : OpItem) (m : String) (bs : List (List Uri)) :
    (accOf env it m bs).results = bs.flatten.map (fun u => (processItem env u it m).1) := by
  induction bs with
  | nil => rfl
  | cons batch rest ih =>
    simp only [accOf] at ih ⊢
    simp only [List.map_cons, List.flatten_cons, List.map_append]
    rw [outcomesOf_eq_map, ih]

/- The dispatched items of a prefix are its concatenation. -/
theorem accOf_dispatched (env : ItemEnv) (it : OpItem) (m : String) (bs : List (List Uri)) :
    (accOf env it m bs).dispatched = bs.flatten := rfl

/- A `process` call that passes both preconditions runs a prefix of the
   batch list determined by the cancellation signal and returns the
   aggregate summary over that prefix, with the engine state released. -/
theorem process_run (env : RunEnv) (st : EngineState) (uris : List Uri) (it : OpItem)
    (b : Nat) (hidle : st.isProcessing = false) (hm : jsStrFalsy env.selectModel = false) :
    ∃ k, k ≤ (createBatches uris b).length ∧
      (∀ j, j < k → env.cancelRequested j = false) ∧
      (k < (createBatches uris b).length → env.cancelRequested k = true) ∧
      process env st uris it b =
        (⟨false, false⟩,
         .ok (summaryFromAcc env
           (accOf env.itemEnv it (env.selectModel.getD "") ((createBatches uris b).take k))),
         ⟨(accOf env.itemEnv it (env.selectModel.getD "")
             ((createBatches uris b).take k)).dispatched,
          (accOf env.itemEnv it (env.selectModel.getD "")
             ((createBatches uris b).take k)).sinkWrites⟩) := by
  obtain ⟨k, hk, hf, ht, heq⟩ :=
    runBatchesFrom_spec env it (env.selectModel.getD "") (createBatches uris b) 0
  refine ⟨k, hk, ?_, ?_, ?_⟩
  · intro j hj
    have h2 := hf j hj
    simpa using h2
  · intro hlt
    have h2 := ht hlt
    simpa using h2
  · simp only [process, hidle, Bool.false_eq_true, if_false, hm]
    rw [heq]

/- Sample concrete targets used by witnesses. -/
def uA : Uri := ⟨"/a"⟩

def uB : Uri := ⟨"/b"⟩

/- Sample environment variants used by witnesses. -/
def sampleNoModelEnv : RunEnv :=
  { sampleRunEnv with selectModel := none }

def sampleCancelEnv : RunEnv :=
  { sampleRunEnv with cancelRequested := fun i => 1 ≤ i }

/-- Claim C1: in every engine state with a run active, a second `process()`
call fails immediately with the concurrency-violation error, leaves the
run-active flag and the cancellation handle exactly as they were, and has
no effects (no dispatch, no sink write) that could alter the first run's
outcome. -/
theorem claim_C1 (env : RunEnv) (st : EngineState) (uris : List Uri) (item : OpItem)
    (batchSize : Nat) (hactive : st.isProcessing = true) :
    process env st uris item batchSize =
      (st, .err "Another batch operation is already in progress", ⟨[], []⟩) := by
  simp [process, hactive]

/-- Witness for claim C1 at a concrete active state. -/
theorem claim_C1_witness :
    process sampleRunEnv ⟨true, true⟩ [⟨"/a"⟩, ⟨"/b"⟩] (.prompt ⟨"p", "X"⟩) 1 =
      (⟨true, true⟩, .err "Another batch operation is already in progress", ⟨[], []⟩) :=
  claim_C1 sampleRunEnv ⟨true, true⟩ [⟨"/a"⟩, ⟨"/b"⟩] (.prompt ⟨"p", "X"⟩) 1 rfl

/-- Claim C2: on every exit path of a `process()` invocation that starts a
run (normal return, model-resolution failure, cancellation — all paths the
model distinguishes), the run-active flag and the cancellation handle are
released before the call returns, so `isCurrentlyProcessing()` is false
once the call completes. -/
theorem claim_C2 (env : RunEnv) (st : EngineState) (uris : List Uri) (item : OpItem)
    (batchSize : Nat) (hb : 1 ≤ batchSize) (hidle : st.isProcessing = false) :
    (process env st uris item batchSize).1.isProcessing = false ∧
    (process env st uris item batchSize).1.cancellationToken = false ∧
    isCurrentlyProcessing (process env st uris item batchSize).1 = false := by
  cases hj : jsStrFalsy env.selectModel <;>
    simp [process, hidle, hj, isCurrentlyProcessing]

/-- Witness for claim C2 at a concrete idle state. -/
theorem claim_C2_witness :
    (process sampleRunEnv ⟨false, false⟩ [⟨"/a"⟩, ⟨"/b"⟩] (.prompt ⟨"p", "X"⟩) 2).1.isProcessing
        = false ∧
    (process sampleRunEnv ⟨false, false⟩ [⟨"/a"⟩, ⟨"/b"⟩]
        (.prompt ⟨"p", "X"⟩) 2).1.cancellationToken = false ∧
    isCurrentlyProcessing
        (process sampleRunEnv ⟨false, false⟩ [⟨"/a"⟩, ⟨"/b"⟩] (.prompt ⟨"p", "X"⟩) 2).1
      = false :=
  claim_C2 sampleRunEnv ⟨false, false⟩ [⟨"/a"⟩, ⟨"/b"⟩] (.prompt ⟨"p", "X"⟩) 2 (by decide) rfl

/-- Claim C3: for every target list and every batch size `b ≥ 1`,
`createBatches` produces `ceil(n / b)` consecutive batches whose
concatenation is the input list, every batch but the last has exactly `b`
items, and the last batch has `n mod b` items (`b` when `b` divides
`n`). -/
theorem claim_C3 {α : Type} (l : List α) (b : Nat) (hb : 1 ≤ b) :
    (createBatches l b).length = (l.length + b - 1) / b ∧
    (createBatches l b).flatten = l ∧
    (∀ batch ∈ (createBatches l b).dropLast, batch.length = b) ∧
    (l ≠ [] → ∃ lastB, (createBatches l b).getLast? = some lastB ∧
      lastB.length = if l.length % b = 0 then b else l.length % b) :=
  ⟨createBatchesFuel_length b hb l.length l (Nat.le_refl _),
   createBatchesFuel_flatten b hb l.length l (Nat.le_refl _),
   createBatchesFuel_dropLast b hb l.length l (Nat.le_refl _),
   fun hne => createBatchesFuel_getLast b hb l.length l (Nat.le_refl _) hne⟩

/-- Witness for claim C3 at `n = 5`, `b = 2`. -/
theorem claim_C3_witness :
    (createBatches [0, 1, 2, 3, 4] 2).length = ((5 : Nat) + 2 - 1) / 2 ∧
    (createBatches [0, 1, 2, 3, 4] 2).flatten = [0, 1, 2, 3, 4] ∧
    (∀ batch ∈ (createBatches [0, 1, 2, 3, 4] 2).dropLast, batch.length = 2) ∧
    ([0, 1, 2, 3, 4] ≠ ([] : List Nat) →
      ∃ lastB, (createBatches [0, 1, 2, 3, 4] 2).getLast? = some lastB ∧
        lastB.length = if ([0, 1, 2, 3, 4] : List Nat).length % 2 = 0 then 2
          else ([0, 1, 2, 3, 4] : List Nat).length % 2) :=
  claim_C3 [0, 1, 2, 3, 4] 2 (by decide)

/-- Claim C4: a run that passes its preconditions returns results in the
original input order — the `i`-th result refers to the `i`-th target —
and under cancellation the results cover an input-ordered prefix of the
batched targets. -/
theorem claim_C4 (env : RunEnv) (st : EngineState) (uris : List Uri) (item : OpItem)
    (b : Nat) (hb : 1 ≤ b) (hidle : st.isProcessing = false)
    (hm : jsStrFalsy env.selectModel = false) :
    ∃ k br, (process env st uris item b).2.1 = .ok br ∧
      br.results.map (fun r => r.uri) = uris.take (b * k) ∧
      ((∀ i, env.cancelRequested i = false) →
        br.results.map (fun r => r.uri) = uris) := by
  obtain ⟨k, hk, hf, ht, heq⟩ := process_run env st uris item b hidle hm
  refine ⟨k,
    summaryFromAcc env
      (accOf env.itemEnv item (env.selectModel.getD "") ((createBatches uris b).take k)),
    by rw [heq], ?_, ?_⟩
  · have h1 : ((createBatches uris b).take k).flatten = uris.take (b * k) :=
      createBatchesFuel_take_flatten b hb uris.length uris k (Nat.le_refl _)
    show (accOf env.itemEnv item (env.selectModel.getD "")
      ((createBatches uris b).take k)).results.map (fun r => r.uri) = uris.take (b * k)
    rw [accOf_results, h1, map_uri_processItem]
  · intro hnc
    have hkeq : k = (createBatches uris b).length := by
      by_contra hcne
      have hlt : k < (createBatches uris b).length := Nat.lt_of_le_of_ne hk hcne
      have h2 := ht hlt
      rw [hnc k] at h2
      simp at h2
    show (accOf env.itemEnv item (env.selectModel.getD "")
      ((createBatches uris b).take k)).results.map (fun r => r.uri) = uris
    have h2 : (createBatches uris b).flatten = uris :=
      createBatchesFuel_flatten b hb uris.length uris (Nat.le_refl _)
    rw [accOf_results, hkeq, List.take_length, h2, map_uri_processItem]

/-- Witness for claim C4 at a concrete uncancelled run. -/
theorem claim_C4_witness :
    ∃ k br,
      (process sampleRunEnv ⟨false, false⟩ [⟨"/a"⟩, ⟨"/b"⟩] (.prompt ⟨"p", "X"⟩) 2).2.1
          = .ok br ∧
      br.results.map (fun r => r.uri) = [⟨"/a"⟩, ⟨"/b"⟩].take (2 * k) ∧
      ((∀ i, sampleRunEnv.cancelRequested i = false) →
        br.results.map (fun r => r.uri) = [⟨"/a"⟩, ⟨"/b"⟩]) :=
  claim_C4 sampleRunEnv ⟨false, false⟩ [⟨"/a"⟩, ⟨"/b"⟩] (.prompt ⟨"p", "X"⟩) 2
    (by decide) rfl (by decide)

/-- Claim C5: per-item failures (read errors, backend errors) are captured
in that item's outcome record with the message preserved, abort neither
sibling items nor the run, and `process()` returns a summary rather than
throwing when items fail; only cancellation can cut the run short. -/
theorem claim_C5 (env : RunEnv) (st : EngineState) (uris : List Uri) (item : OpItem)
    (b : Nat) (m : String) (hb : 1 ≤ b) (hidle : st.isProcessing = false)
    (hm : env.selectModel = some m) (hmne : m ≠ "") :
    (∃ br, (process env st uris item b).2.1 = .ok br ∧
      ((∀ i, env.cancelRequested i = false) →
        br.results = uris.map (fun u => (processItem env.itemEnv u item m).1))) ∧
    (∀ u e, env.itemEnv.readFile u = .error e →
      processItem env.itemEnv u item m
        = ({ uri := u, success := false, error := some e }, false)) ∧
    (∀ u content e, env.itemEnv.readFile u = .ok content →
      env.itemEnv.send
          { prompt := buildPrompt u content item env.itemEnv.workspacePath,
            model := m } = .error e →
      processItem env.itemEnv u item m
        = ({ uri := u, success := false, error := some e }, false)) := by
  have hmf : jsStrFalsy env.selectModel = false := by
    rw [hm]
    simp [jsStrFalsy, hmne]
  have hg : env.selectModel.getD "" = m := by rw [hm]; rfl
  refine ⟨?_, ?_, ?_⟩
  · obtain ⟨k, hk, hf, ht, heq⟩ := process_run env st uris item b hidle hmf
    refine ⟨summaryFromAcc env
      (accOf env.itemEnv item (env.selectModel.getD "") ((createBatches uris b).take k)),
      by rw [heq], ?_⟩
    intro hnc
    have hkeq : k = (createBatches uris b).length := by
      by_contra hcne
      have hlt := Nat.lt_of_le_of_ne hk hcne
      have h2 := ht hlt
      rw [hnc k] at h2
      simp at h2
    have h2 : (createBatches uris b).flatten = uris :=
      createBatchesFuel_flatten b hb uris.length uris (Nat.le_refl _)
    show (accOf env.itemEnv item (env.selectModel.getD "")
      ((createBatches uris b).take k)).results
        = uris.map (fun u => (processItem env.itemEnv u item m).1)
    rw [accOf_results, hkeq, List.take_length, h2, hg]
  · intro u e h
    exact processItem_read_error env.itemEnv u item m e h
  · intro u content e hr hs
    exact processItem_send_error env.itemEnv u item m content e hr hs

/-- Witness for claim C5: a concrete run in which one item fails its read
and the sibling item still succeeds. -/
theorem claim_C5_witness :
    (∃ br, (process sampleRunEnv ⟨false, false⟩ [⟨"/a"⟩, ⟨"/b"⟩]
        (.prompt ⟨"p", "X"⟩) 1).2.1 = .ok br ∧
      ((∀ i, sampleRunEnv.cancelRequested i = false) →
        br.results = [⟨"/a"⟩, ⟨"/b"⟩].map
          (fun u => (processItem sampleRunEnv.itemEnv u (.prompt ⟨"p", "X"⟩) "m").1))) ∧
    (∀ u e, sampleRunEnv.itemEnv.readFile u = .error e →
      processItem sampleRunEnv.itemEnv u (.prompt ⟨"p", "X"⟩) "m"
        = ({ uri := u, success := false, error := some e }, false)) ∧
    (∀ u content e, sampleRunEnv.itemEnv.readFile u = .ok content →
      sampleRunEnv.itemEnv.send
          { prompt := buildPrompt u content (.prompt ⟨"p", "X"⟩)
              sampleRunEnv.itemEnv.workspacePath,
            model := "m" } = .error e →
      processItem sampleRunEnv.itemEnv u (.prompt ⟨"p", "X"⟩) "m"
        = ({ uri := u, success := false, error := some e }, false)) :=
  claim_C5 sampleRunEnv ⟨false, false⟩ [⟨"/a"⟩, ⟨"/b"⟩] (.prompt ⟨"p", "X"⟩) 1 "m"
    (by decide) rfl rfl (by decide)

/-- Claim C6: when no model resolves, `process()` fails with the
model-resolution error before any item is dispatched: no outcome is
recorded, no Result Sink write occurs, and the engine state is
released. -/
theorem claim_C6 (env : RunEnv) (st : EngineState) (uris : List Uri) (item : OpItem)
    (batchSize : Nat) (hidle : st.isProcessing = false)
    (hm : jsStrFalsy env.selectModel = true) :
    process env st uris item batchSize =
      (⟨false, false⟩, .err "No model selected", ⟨[], []⟩) := by
  simp [process, hidle, hm]

/-- Witness for claim C6 at a concrete zero-model environment. -/
theorem claim_C6_witness :
    process sampleNoModelEnv ⟨false, false⟩ [⟨"/a"⟩, ⟨"/b"⟩] (.prompt ⟨"p", "X"⟩) 1 =
      (⟨false, false⟩, .err "No model selected", ⟨[], []⟩) :=
  claim_C6 sampleNoModelEnv ⟨false, false⟩ [⟨"/a"⟩, ⟨"/b"⟩] (.prompt ⟨"p", "X"⟩) 1 rfl rfl

/-- Claim C7: cancellation is observed only at batch boundaries: the run
dispatches exactly the batches whose boundary check saw no signal, the
first undisptached batch (if any) saw the signal, every item of a
dispatched batch gets a recorded outcome, and `totalProcessed` counts
exactly the items of dispatched batches. -/
theorem claim_C7 (env : RunEnv) (st : EngineState) (uris : List Uri) (item : OpItem)
    (b : Nat) (hb : 1 ≤ b) (hidle : st.isProcessing = false)
    (hm : jsStrFalsy env.selectModel = false) :
    ∃ k, k ≤ (createBatches uris b).length ∧
      (∀ j, j < k → env.cancelRequested j = false) ∧
      (k < (createBatches uris b).length → env.cancelRequested k = true) ∧
      ∃ br, (process env st uris item b).2.1 = .ok br ∧
        br.results.map (fun r => r.uri) = uris.take (b * k) ∧
        br.totalProcessed = (uris.take (b * k)).length ∧
        (process env st uris item b).2.2.dispatched = uris.take (b * k) := by
  obtain ⟨k, hk, hf, ht, heq⟩ := process_run env st uris item b hidle hm
  have h1 : ((createBatches uris b).take k).flatten = uris.take (b * k) :=
    createBatchesFuel_take_flatten b hb uris.length uris k (Nat.le_refl _)
  refine ⟨k, hk, hf, ht,
    summaryFromAcc env
      (accOf env.itemEnv item (env.selectModel.getD "") ((createBatches uris b).take k)),
    by rw [heq], ?_, ?_, ?_⟩
  · show (accOf env.itemEnv item (env.selectModel.getD "")
      ((createBatches uris b).take k)).results.map (fun r => r.uri) = uris.take (b * k)
    rw [accOf_results, h1, map_uri_processItem]
  · show (accOf env.itemEnv item (env.selectModel.getD "")
      ((createBatches uris b).take k)).results.length = (uris.take (b * k)).length
    rw [accOf_results, h1, List.length_map]
  · rw [heq]
    show (accOf env.itemEnv item (env.selectModel.getD "")
      ((createBatches uris b).take k)).dispatched = uris.take (b * k)
    rw [accOf_dispatched, h1]

/-- Witness for claim C7 at a concrete run whose cancellation signal
arrives after the first batch boundary. -/
theorem claim_C7_witness :
    ∃ k, k ≤ (createBatches [uA, uB] 1).length ∧
      (∀ j, j < k → sampleCancelEnv.cancelRequested j = false) ∧
      (k < (createBatches [uA, uB] 1).length →
        sampleCancelEnv.cancelRequested k = true) ∧
      ∃ br, (process sampleCancelEnv ⟨false, false⟩ [uA, uB]
          (.prompt ⟨"p", "X"⟩) 1).2.1 = .ok br ∧
        br.results.map (fun r => r.uri) = [uA, uB].take (1 * k) ∧
        br.totalProcessed = ([uA, uB].take (1 * k)).length ∧
        (process sampleCancelEnv ⟨false, false⟩ [uA, uB]
          (.prompt ⟨"p", "X"⟩) 1).2.2.dispatched = [uA, uB].take (1 * k) :=
  claim_C7 sampleCancelEnv ⟨false, false⟩ [uA, uB] (.prompt ⟨"p", "X"⟩) 1
    (by decide) rfl (by decide)

/-- Counterexample to claim C8 as stated: substitution is not a single
simultaneous literal pass.  With content `{{FILE_NAME}}` and template
`{{FILE_CONTENT}}`, literal substitution would output the content string
itself, but `buildPrompt` applies the four global replacements
sequentially, so the later `FILE_NAME` pass rewrites the placeholder text
that arrived inside the content value, producing `report.txt`. -/
theorem claim_C8_counterexample :
    buildPrompt ⟨"/x/y/report.txt"⟩ "\x7b\x7bFILE_NAME\x7d\x7d"
        (.prompt ⟨"p", "\x7b\x7bFILE_CONTENT\x7d\x7d"⟩) none = "report.txt" ∧
    buildPrompt ⟨"/x/y/report.txt"⟩ "\x7b\x7bFILE_NAME\x7d\x7d"
        (.prompt ⟨"p", "\x7b\x7bFILE_CONTENT\x7d\x7d"⟩) none ≠ "\x7b\x7bFILE_NAME\x7d\x7d" :=
  ⟨by decide, by decide⟩

/-- Claim C8 (amended): template resolution applies four global,
case-sensitive, literal replacement passes in the order FILE_CONTENT,
FILE_PATH, FILE_NAME, WORKSPACE_PATH — so placeholder text contained in
values inserted by an earlier pass is substituted by the later passes;
every occurrence within each pass is replaced; unknown placeholders such
as `{{FOO}}` are left untouched; `{{WORKSPACE_PATH}}` falls back to the
empty string without a workspace; the spec's concrete example yields
exactly `A:report.txt B:hi`; and resolution is deterministic, so
identical inputs give byte-identical output. -/
theorem claim_C8 :
    buildPrompt ⟨"/x/y/report.txt"⟩ "hi"
        (.prompt ⟨"p", "A:\x7b\x7bFILE_NAME\x7d\x7d B:\x7b\x7bFILE_CONTENT\x7d\x7d"⟩) none
      = "A:report.txt B:hi" ∧
    buildPrompt ⟨"/x/y/report.txt"⟩ "hi" (.prompt ⟨"p", "X \x7b\x7bFOO\x7d\x7d Y"⟩) none
      = "X \x7b\x7bFOO\x7d\x7d Y" ∧
    buildPrompt ⟨"/x/y/report.txt"⟩ "hi"
        (.prompt ⟨"p", "\x7b\x7bfile_content\x7d\x7d"⟩) none
      = "\x7b\x7bfile_content\x7d\x7d" ∧
    buildPrompt ⟨"/x/y/report.txt"⟩ "hi"
        (.prompt ⟨"p", "\x7b\x7bFILE_CONTENT\x7d\x7d+\x7b\x7bFILE_CONTENT\x7d\x7d"⟩) none
      = "hi+hi" ∧
    buildPrompt ⟨"/x/y/report.txt"⟩ "hi"
        (.prompt ⟨"p", "\x7b\x7bFILE_PATH\x7d\x7d|\x7b\x7bWORKSPACE_PATH\x7d\x7d"⟩)
        (some "/w")
      = "/x/y/report.txt|/w" ∧
    buildPrompt ⟨"/x/y/report.txt"⟩ "hi"
        (.prompt ⟨"p", "\x7b\x7bFILE_PATH\x7d\x7d|\x7b\x7bWORKSPACE_PATH\x7d\x7d"⟩) none
      = "/x/y/report.txt|" ∧
    buildPrompt ⟨"/x/y/report.txt"⟩ "\x7b\x7bFILE_NAME\x7d\x7d"
        (.prompt ⟨"p", "\x7b\x7bFILE_CONTENT\x7d\x7d"⟩) none
      = "report.txt" ∧
    (∀ (u : Uri) (c : String) (it : OpItem) (w : Option String),
      buildPrompt u c it w = buildPrompt u c it w) :=
  ⟨by decide, by decide, by decide, by decide, by decide, by decide, by decide,
   fun u c it w => rfl⟩

/- Sample MCP server environment used by witnesses. -/
def sampleServerEnv : ServerEnv :=
  { tasksFindTypeError := "item_name is not a function",
    prompts := [⟨"review", "Do \x7b\x7bFILE_NAME\x7d\x7d"⟩],
    findFiles := fun pat => if pat = "**" then [uA] else [],
    run := sampleRunEnv }

/-- Claim C9: at the external batch invocation, the `task` branch can
never produce the item-not-found response: `getTasks().find(item_name)`
passes a string where `Array.prototype.find` requires a function, so a
`TypeError` is thrown for every operation name and surfaced as an
internal error (-32603) with no run started.  The `prompt` branch behaves
as claimed: a missing prompt yields the item-not-found response (-32602)
and an empty resolved target set yields the no-matching-files response
(-32602), both with no run started and the engine state untouched. -/
theorem claim_C9 (env : ServerEnv) (st : EngineState) (name : String)
    (pats : Option (List String)) (bsz : Nat) (hn : name ≠ "") (hp : pats ≠ none) :
    handleBatchProcessFiles env st ⟨"task", name, pats, bsz⟩ =
      (st, .err (-32603) env.tasksFindTypeError) ∧
    (getPrompt env.prompts name = none →
      handleBatchProcessFiles env st ⟨"prompt", name, pats, bsz⟩ =
        (st, .err (-32602) ("Prompt not found: " ++ name))) ∧
    (∀ p, getPrompt env.prompts name = some p →
      ((pats.getD []).map env.findFiles).flatten = [] →
      handleBatchProcessFiles env st ⟨"prompt", name, pats, bsz⟩ =
        (st, .err (-32602) "No files found matching the specified patterns")) := by
  refine ⟨?_, ?_, ?_⟩
  · simp [handleBatchProcessFiles, hn, hp]
  · intro hnone
    simp [handleBatchProcessFiles, hn, hp, hnone]
  · intro p hsome hempty
    simp [handleBatchProcessFiles, hn, hp, hsome, hempty]

/-- Witness for claim C9 at a concrete server environment and a
nonexistent operation name. -/
theorem claim_C9_witness :
    handleBatchProcessFiles sampleServerEnv ⟨false, false⟩ ⟨"task", "nope", some ["zzz"], 1⟩ =
      (⟨false, false⟩, .err (-32603) sampleServerEnv.tasksFindTypeError) ∧
    (getPrompt sampleServerEnv.prompts "nope" = none →
      handleBatchProcessFiles sampleServerEnv ⟨false, false⟩
          ⟨"prompt", "nope", some ["zzz"], 1⟩ =
        (⟨false, false⟩, .err (-32602) ("Prompt not found: " ++ "nope"))) ∧
    (∀ p, getPrompt sampleServerEnv.prompts "nope" = some p →
      (((some ["zzz"] : Option (List String)).getD []).map
        sampleServerEnv.findFiles).flatten = [] →
      handleBatchProcessFiles sampleServerEnv ⟨false, false⟩
          ⟨"prompt", "nope", some ["zzz"], 1⟩ =
        (⟨false, false⟩, .err (-32602) "No files found matching the specified patterns")) :=
  claim_C9 sampleServerEnv ⟨false, false⟩ "nope" (some ["zzz"]) 1 (by decide) (by decide)

/-- Claim C10: `processItem` always settles to an outcome record and never
rejects — its promise always fulfills with the function's return value,
the rejected branch of the all-settled handling is therefore unreachable
(every recorded outcome of a batch is a `processItem` return value), and
any error thrown inside the item's pipeline is converted by the final
`catch` into a failure outcome. -/
theorem claim_C10 :
    (∀ (env : ItemEnv) (u : Uri) (it : OpItem) (m : String),
      processItemSettled env u it m = .fulfilled (processItem env u it m)) ∧
    (∀ (env : ItemEnv) (it : OpItem) (m : String) (batch : List Uri),
      outcomesOf env it m batch = batch.map (fun u => (processItem env u it m).1)) ∧
    (∀ (env : ItemEnv) (u : Uri) (it : OpItem) (m : String) (e : String),
      processItemTry env u it m = .error e →
      processItem env u it m = ({ uri := u, success := false, error := some e }, false)) := by
  refine ⟨fun env u it m => rfl, fun env it m batch => outcomesOf_eq_map env it m batch, ?_⟩
  intro env u it m e h
  simp [processItem, h]

/-- Witness for claim C10: the catch-conversion clause applied at a
concrete failing read. -/
theorem claim_C10_witness :
    processItem sampleItemEnv uB (.prompt ⟨"p", "X"⟩) "m" =
      ({ uri := uB, success := false, error := some "boom" }, false) :=
  claim_C10.2.2 sampleItemEnv uB (.prompt ⟨"p", "X"⟩) "m" "boom" rfl
